import Mathlib

/-!
# Verification of the Precompile Hint Stream Processor

A shallow embedding of `precompiles/common/src/precompiles_hints.rs`:
the record parser (`from_u64_slice`), the control-directive decoder,
the handler registry (`process_hint` and friends), the lock-guarded
shared state with its reorder buffer, the worker closure's lock-held
section (`workerStore` and the `drain` loop), the dispatcher
(`process_hints` / `processHintsLoop`), `wait_for_completion`
(`wait_step`) and `reset` (`resetFn`).

Machine integers (`u64`, `u32`) are modelled as `Nat` with explicit
`% 2 ^ w` truncation at the casts that appear in the source; bit masks
and shifts are rendered arithmetically (`x &&& 0xFF000000 >>> 24` is
`x / 2 ^ 24 % 2 ^ 8`, `x &&& 0x00FFFFFF` is `x % 2 ^ 24`).

Concurrency is modelled by a labelled transition relation `Step` over
the shared state: the two lock-held critical sections of the source
(the dispatcher's slot reservation and the worker's store-and-drain)
are single atomic events, interleaved arbitrarily; the worker's
lock-free fast exit on the error flag is the `discard` event.  The
condition variable is abstracted away: `wait_step` gives the value
`wait_for_completion` returns as a function of the shared state at the
moment the blocked loop observes it (`none` = keeps blocking).
A ghost field `delivered` records what the drain loop hands to the
downstream sink (the `println!` in the source), which the real state
does not retain.
-/

namespace PrecompilesHints

/-- `HINTS_TYPE_RESULT`: pass-through data (source line 58). -/
def HINTS_TYPE_RESULT : Nat := 1

/-- `HINTS_TYPE_ECRECOVER` (source line 61). -/
def HINTS_TYPE_ECRECOVER : Nat := 2

def STREAM_CTRL_NONE : Nat := 0x00
def STREAM_CTRL_START : Nat := 0x01
def STREAM_CTRL_END : Nat := 0x02
def STREAM_CTRL_CANCEL : Nat := 0x03
def STREAM_CTRL_ERROR : Nat := 0x04

/-- Control byte of a hint type: `(hint_type & STREAM_CTRL_MASK) >> STREAM_CTRL_SHIFT`
with `STREAM_CTRL_MASK = 0xFF00_0000`, `STREAM_CTRL_SHIFT = 24`,
i.e. bits 31..24, written arithmetically. -/
def ctrlOf (hint_type : Nat) : Nat := hint_type / 2 ^ 24 % 2 ^ 8

/-- Base type of a hint type: `hint_type & STREAM_BASE_MASK` with
`STREAM_BASE_MASK = 0x00FF_FFFF`, i.e. bits 23..0. -/
def baseOf (hint_type : Nat) : Nat := hint_type % 2 ^ 24

/-- `struct PrecompileHint { hint_type: u32, data: Vec<u64> }`. -/
structure PrecompileHint where
  hint_type : Nat
  data : List Nat
deriving Repr, DecidableEq

/-- `Result<PrecompileHint>` of the parser. -/
inductive Parsed where
  | ok (hint : PrecompileHint)
  | err (msg : String)
deriving Repr, DecidableEq

/-- `PrecompileHint::from_u64_slice(slice, idx)` (source lines 108..128).
`header = slice[idx]`; `hint_type = (header >> 32) as u32` is
`header / 2 ^ 32 % 2 ^ 32`; `length = (header & 0xFFFFFFFF) as u32` is
`header % 2 ^ 32`; `data = slice[idx + 1 .. idx + length + 1]`. -/
def from_u64_slice (slice : List Nat) (idx : Nat) : Parsed :=
  if slice.isEmpty ∨ slice.length ≤ idx then
    .err "Slice too short to contain a hint"
  else
    let header := slice.getD idx 0
    let hint_type := header / 2 ^ 32 % 2 ^ 32
    let length := header % 2 ^ 32
    if slice.length < idx + length + 1 then
      .err ("Slice too short for hint data: expected " ++ toString length ++
        ", got " ++ toString (slice.length - idx - 1))
    else
      .ok { hint_type := hint_type, data := (slice.drop (idx + 1)).take length }

/-- `Result<Vec<u64>>` of a hint handler. -/
inductive HintResult where
  | ok (data : List Nat)
  | err (msg : String)
deriving Repr, DecidableEq

/-- `process_hint_result`: pass-through (source lines 443..445). -/
def process_hint_result (hint : PrecompileHint) : HintResult := .ok hint.data

/-- `process_hint_ecrecover`: currently returns an empty vector
(source lines 448..462). -/
def process_hint_ecrecover (_hint : PrecompileHint) : HintResult := .ok []

/-- `process_hint`: dispatch on `hint.hint_type` (source lines 427..437). -/
def process_hint (hint : PrecompileHint) : HintResult :=
  if hint.hint_type = HINTS_TYPE_RESULT then process_hint_result hint
  else if hint.hint_type = HINTS_TYPE_ECRECOVER then process_hint_ecrecover hint
  else .err ("Unknown hint type: " ++ toString hint.hint_type)

/-- A unit of work spawned on the pool: the captured
`(generation, seq_id, hint, base_type)` of the worker closure
(source lines 288..298). -/
structure Task where
  generation : Nat
  seq : Nat
  hint : PrecompileHint
  base_type : Nat
deriving Repr, DecidableEq

/-- The shared state (`SharedState` + `ReorderBuffer`, source lines
136..167), with three ghost fields: `tasks`, the multiset of spawned
but not yet finished worker closures; `delivered`, the `(seq, data)`
pairs handed to the sink by the drain loop in the order they were
handed over; and `dispatched`, the log of every data record a slot was
ever reserved for, in reservation order.  A buffer entry `none` is a
`Pending` slot, `some r` a `Ready` slot. -/
structure PState where
  buffer : List (Option HintResult)
  base_seq : Nat
  next_seq : Nat
  has_error : Bool
  generation : Nat
  tasks : List Task
  delivered : List (Nat × List Nat)
  dispatched : List PrecompileHint
deriving Repr, DecidableEq

/-- `SharedState::new()` (source lines 158..166). -/
def initState : PState :=
  { buffer := [], base_seq := 0, next_seq := 0, has_error := false,
    generation := 0, tasks := [], delivered := [], dispatched := [] }

/-- Outcome of the drain loop: the remaining buffer, the new
`base_seq`, whether an `Err` slot set the error flag, and the
delivered log. -/
structure DrainResult where
  buffer : List (Option HintResult)
  base_seq : Nat
  errored : Bool
  delivered : List (Nat × List Nat)
deriving Repr, DecidableEq

/-- The worker's drain loop (source lines 339..359): while the front
slot is `Ready`: on `Ok` pop it, bump `base_seq` and hand the value to
the sink; on `Err` set the error flag, pop it, bump `base_seq` and
stop draining. -/
def drain : List (Option HintResult) → Nat → List (Nat × List Nat) → DrainResult
  | [], base, acc => ⟨[], base, false, acc⟩
  | none :: rest, base, acc => ⟨none :: rest, base, false, acc⟩
  | some (.ok d) :: rest, base, acc => drain rest (base + 1) (acc ++ [(base, d)])
  | some (.err _) :: rest, base, acc => ⟨rest, base + 1, true, acc⟩

/-- The result the worker computes outside the lock (source lines
304..308): the hint type is overridden with the captured base type
before calling `process_hint`. -/
def workerCompute (t : Task) : HintResult :=
  process_hint { hint_type := t.base_type, data := t.hint.data }

/-- The worker closure's lock-held section (source lines 311..364):
discard if the generation is stale, if the slot was already drained or
never existed, or if the error flag is set; otherwise store the result
at offset `seq - base_seq` and run the drain loop. -/
def workerStore (s : PState) (t : Task) : PState :=
  if t.generation ≠ s.generation then s
  else if t.seq < s.base_seq then s
  else if s.buffer.length ≤ t.seq - s.base_seq then s
  else if s.has_error then s
  else
    let r := drain (s.buffer.set (t.seq - s.base_seq) (some (workerCompute t)))
      s.base_seq s.delivered
    { s with buffer := r.buffer, base_seq := r.base_seq,
             has_error := r.errored, delivered := r.delivered }

/-- The dispatcher's lock-held slot reservation (source lines
288..294) together with the `pool.spawn` (line 298): capture the
current generation, allocate `seq = next_seq++`, push a `Pending`
slot, and record the spawned closure. -/
def reserveFn (s : PState) (hint : PrecompileHint) : PState :=
  { s with buffer := s.buffer ++ [none],
           next_seq := s.next_seq + 1,
           tasks := s.tasks ++
             [{ generation := s.generation, seq := s.next_seq, hint := hint,
                base_type := baseOf hint.hint_type }],
           dispatched := s.dispatched ++ [hint] }

/-- Setting the sticky error flag (`has_error.store(true)` plus
`notify_all`, source lines 267..268 and 272..273). -/
def setErrorFn (s : PState) : PState := { s with has_error := true }

/-- `reset` (source lines 407..415): clear the error flag, zero
`next_seq`, increment the generation, clear the buffer, zero
`base_seq`.  In-flight tasks and the ghost delivery log survive. -/
def resetFn (s : PState) : PState :=
  { s with has_error := false, next_seq := 0, generation := s.generation + 1,
           buffer := [], base_seq := 0 }
-- (`tasks`, `delivered` and `dispatched` are ghost logs; the real
-- reset touches none of the data they shadow.)

/-- `Result<()>` of `process_hints` / `wait_for_completion`. -/
inductive PResult where
  | ok
  | err (msg : String)
deriving Repr, DecidableEq

/-- `wait_for_completion` (source lines 382..398) as a function of the
shared state at the moment the waiting loop observes it: with an empty
buffer the loop exits and the final flag check decides the result;
with a nonempty buffer the loop body returns `Err` if the flag is set
and otherwise blocks on the condition variable (`none`). -/
def wait_step (s : PState) : Option PResult :=
  if s.buffer = [] then
    some (if s.has_error then .err "Processing stopped due to error" else .ok)
  else if s.has_error then some (.err "Processing stopped due to error")
  else none

/-- The scan loop of `process_hints` (source lines 242..368), threading
the shared state of a single uninterleaved call: per record, check the
error flag, parse, decode the control byte; `START` resets and skips,
`CANCEL` / `ERROR` set the flag and abort, `END` consults
`wait_for_completion` (rendered by `wait_step`; the model covers the
schedules on which that wait does not block, and reports a
distinguished error on the others, which no theorem below relies on),
and any other control value falls through to the data path, which
reserves a slot and spawns a worker.  The scan index advances by
`data.len() + 1` in every arm. -/
def processHintsLoop (s : PState) (hints : List Nat) (idx : Nat) : PState × PResult :=
  if _h : hints.length ≤ idx then (s, .ok)
  else if s.has_error then (s, .err "Processing stopped due to previous error")
  else
    match from_u64_slice hints idx with
    | .err e => (s, .err e)
    | .ok hint =>
      if ctrlOf hint.hint_type = STREAM_CTRL_START then
        processHintsLoop (resetFn s) hints (idx + hint.data.length + 1)
      else if ctrlOf hint.hint_type = STREAM_CTRL_CANCEL then
        (setErrorFn s, .err "Stream cancelled")
      else if ctrlOf hint.hint_type = STREAM_CTRL_ERROR then
        (setErrorFn s, .err "Stream error signalled")
      else if ctrlOf hint.hint_type = STREAM_CTRL_END then
        match wait_step s with
        | some (.err e) => (s, .err e)
        | some .ok => processHintsLoop s hints (idx + hint.data.length + 1)
        | none => (s, .err "model: wait_for_completion would block")
      else
        processHintsLoop (reserveFn s hint) hints (idx + hint.data.length + 1)
termination_by hints.length - idx
decreasing_by all_goals omega

/-- `process_hints` (source lines 235..371): the up-front error-flag
check followed by the scan loop. -/
def process_hints (s : PState) (hints : List Nat) : PState × PResult :=
  if s.has_error then (s, .err "Processing stopped due to previous error")
  else processHintsLoop s hints 0

/-- `make_header` of the source's test module: `(hint_type << 32) | length`. -/
def make_header (hint_type length : Nat) : Nat :=
  hint_type % 2 ^ 32 * 2 ^ 32 + length % 2 ^ 32

/-- Events of the concurrent system, at the granularity of the
lock-held critical sections. -/
inductive Event where
  /-- the dispatcher reserves a slot for a data record and spawns a worker -/
  | reserve (hint : PrecompileHint)
  /-- a worker acquires the lock and runs its store-and-drain section -/
  | finish (t : Task)
  /-- a worker fast-exits on the error flag without taking the lock -/
  | discard (t : Task)
  /-- the dispatcher handles a CANCEL or ERROR directive -/
  | cancel
  /-- the dispatcher handles a START directive (or `reset` is called) -/
  | reset
deriving Repr, DecidableEq

/-- One atomic transition of the shared state. -/
inductive Step : PState → Event → PState → Prop where
  | reserve (s : PState) (hint : PrecompileHint) :
      Step s (.reserve hint) (reserveFn s hint)
  | finish (s : PState) (t : Task) (ht : t ∈ s.tasks) :
      Step s (.finish t) { workerStore s t with tasks := s.tasks.erase t }
  | discard (s : PState) (t : Task) (ht : t ∈ s.tasks) (he : s.has_error = true) :
      Step s (.discard t) { s with tasks := s.tasks.erase t }
  | cancel (s : PState) : Step s .cancel (setErrorFn s)
  | reset (s : PState) : Step s .reset (resetFn s)

/-- States reachable from the fresh processor by any interleaving. -/
inductive Reach : PState → Prop where
  | init : Reach initState
  | step {s : PState} {e : Event} {s' : PState} :
      Reach s → Step s e s' → Reach s'

/-- States reachable from the fresh processor by interleavings that
contain no reset (no START directive and no `reset()` call). -/
inductive ReachNR : PState → Prop where
  | init : ReachNR initState
  | step {s : PState} {e : Event} {s' : PState} :
      ReachNR s → Step s e s' → e ≠ .reset → ReachNR s'

/-- Reflexive-transitive closure of reset-free steps, from an
arbitrary starting state. -/
inductive StepsNR : PState → PState → Prop where
  | refl (s : PState) : StepsNR s s
  | tail {s m s' : PState} {e : Event} :
      StepsNR s m → Step m e s' → e ≠ .reset → StepsNR s s'

/-- Reflexive-transitive closure of arbitrary steps. -/
inductive Steps : PState → PState → Prop where
  | refl (s : PState) : Steps s s
  | tail {s m s' : PState} {e : Event} :
      Steps s m → Step m e s' → Steps s s'

/-- The sequence ids of the hints delivered to the sink, in delivery
order. -/
def deliveredSeqs (s : PState) : List Nat := s.delivered.map Prod.fst

/-! ## Properties of the drain loop -/

/-- Draining preserves `base_seq + buffer.length`: every pop of a slot
bumps `base_seq` by one. -/
theorem drain_len (buf : List (Option HintResult)) (base : Nat)
    (acc : List (Nat × List Nat)) :
    (drain buf base acc).base_seq + (drain buf base acc).buffer.length =
      base + buf.length := by
  induction buf generalizing base acc with
  | nil => simp [drain]
  | cons a rest ih =>
    rcases a with _ | r
    · simp [drain]
    · rcases r with d | m
      · simp only [drain, List.length_cons]
        have h := ih (base + 1) (acc ++ [(base, d)])
        omega
      · simp [drain]; omega

/-- Draining never decreases `base_seq`. -/
theorem drain_base_le (buf : List (Option HintResult)) (base : Nat)
    (acc : List (Nat × List Nat)) :
    base ≤ (drain buf base acc).base_seq := by
  induction buf generalizing base acc with
  | nil => simp [drain]
  | cons a rest ih =>
    rcases a with _ | r
    · simp [drain]
    · rcases r with d | m
      · simp only [drain]
        have h := ih (base + 1) (acc ++ [(base, d)])
        omega
      · simp [drain]

/-- An error-free drain delivers exactly the consecutive sequence ids
`base, base + 1, …` up to the new `base_seq`, appended to the log in
that order. -/
theorem drain_delivered_of_ok (buf : List (Option HintResult)) (base : Nat)
    (acc : List (Nat × List Nat)) (h : (drain buf base acc).errored = false) :
    (drain buf base acc).delivered.map Prod.fst =
      acc.map Prod.fst ++ List.range' base ((drain buf base acc).base_seq - base) := by
  induction buf generalizing base acc with
  | nil => simp [drain]
  | cons a rest ih =>
    rcases a with _ | r
    · simp [drain]
    · rcases r with d | m
      · simp only [drain] at h ⊢
        have hle := drain_base_le rest (base + 1) (acc ++ [(base, d)])
        have hrec := ih (base + 1) (acc ++ [(base, d)]) h
        rw [hrec]
        have hsub : (drain rest (base + 1) (acc ++ [(base, d)])).base_seq - base =
            ((drain rest (base + 1) (acc ++ [(base, d)])).base_seq - (base + 1)) + 1 := by
          omega
        rw [hsub, List.range'_succ]
        simp
      · simp [drain] at h

/-! ## Properties of the worker's lock-held section -/

/-- The worker never touches `next_seq`. -/
theorem workerStore_next_seq (s : PState) (t : Task) :
    (workerStore s t).next_seq = s.next_seq := by
  unfold workerStore; split_ifs <;> rfl

/-- The worker never touches the generation counter. -/
theorem workerStore_generation (s : PState) (t : Task) :
    (workerStore s t).generation = s.generation := by
  unfold workerStore; split_ifs <;> rfl

/-- The worker never touches the ghost task list. -/
theorem workerStore_tasks (s : PState) (t : Task) :
    (workerStore s t).tasks = s.tasks := by
  unfold workerStore; split_ifs <;> rfl

/-- The worker never touches the ghost dispatch log. -/
theorem workerStore_dispatched (s : PState) (t : Task) :
    (workerStore s t).dispatched = s.dispatched := by
  unfold workerStore; split_ifs <;> rfl

/-- With the error flag set, the worker's lock-held section discards
the result and leaves the state unchanged (source line 332). -/
theorem workerStore_of_error {s : PState} (t : Task) (he : s.has_error = true) :
    workerStore s t = s := by
  simp only [workerStore, he, if_true]
  split_ifs <;> rfl

/-- A stale worker (generation mismatch) discards its result and
leaves the state unchanged (source lines 314..318). -/
theorem workerStore_stale {s : PState} {t : Task}
    (hg : t.generation ≠ s.generation) : workerStore s t = s := by
  unfold workerStore
  rw [if_pos hg]

/-- The worker preserves `base_seq + buffer.length`: a slot is popped
exactly when `base_seq` is bumped. -/
theorem workerStore_len (s : PState) (t : Task) :
    (workerStore s t).base_seq + (workerStore s t).buffer.length =
      s.base_seq + s.buffer.length := by
  unfold workerStore
  split_ifs <;> try rfl
  have h := drain_len (s.buffer.set (t.seq - s.base_seq) (some (workerCompute t)))
    s.base_seq s.delivered
  simpa using h

/-! ## Invariants along transitions -/

theorem range_append_range' (b k : Nat) :
    List.range b ++ List.range' b k = List.range (b + k) := by
  rw [List.range_eq_range', List.range_eq_range']
  have h := List.range'_append 0 b k 1
  simp at h
  rw [h, Nat.add_comm]

/-- Every transition preserves the slot/sequence correspondence
`next_seq = base_seq + buffer.length` (so `buffer[0]` is the slot of
`base_seq` and the tail slot is `next_seq - 1`). -/
theorem step_len_inv {s : PState} {e : Event} {s' : PState} (hst : Step s e s')
    (ih : s.next_seq = s.base_seq + s.buffer.length) :
    s'.next_seq = s'.base_seq + s'.buffer.length := by
  cases hst with
  | reserve hint => simp [reserveFn]; omega
  | finish t ht =>
    have h1 := workerStore_next_seq s t
    have h2 := workerStore_len s t
    simp only []
    omega
  | discard t ht he => simpa using ih
  | cancel => simpa [setErrorFn] using ih
  | reset => simp [resetFn]

/-- The error flag is sticky along any reset-free transition. -/
theorem step_error_sticky {s : PState} {e : Event} {s' : PState}
    (hst : Step s e s') (hne : e ≠ .reset) (he : s.has_error = true) :
    s'.has_error = true := by
  cases hst with
  | reserve hint => simpa [reserveFn] using he
  | finish t ht => simpa [workerStore_of_error t he] using he
  | discard t ht hd => simpa using he
  | cancel => simp [setErrorFn]
  | reset => exact absurd rfl hne

/-- After the error flag is set, no reset-free transition delivers
anything to the sink. -/
theorem step_frozen_delivered {s : PState} {e : Event} {s' : PState}
    (hst : Step s e s') (hne : e ≠ .reset) (he : s.has_error = true) :
    s'.delivered = s.delivered := by
  cases hst with
  | reserve hint => simp [reserveFn]
  | finish t ht => simp [workerStore_of_error t he]
  | discard t ht hd => simp
  | cancel => simp [setErrorFn]
  | reset => exact absurd rfl hne

/-- Any reset-free transition out of an error-free state preserves the
ordered-delivery invariant: the delivered sequence ids are exactly
`0, 1, …, base_seq - 1` in that order. -/
theorem step_delivered_inv {s : PState} {e : Event} {s' : PState}
    (hst : Step s e s') (hne : e ≠ .reset)
    (ih : s.has_error = false → deliveredSeqs s = List.range s.base_seq) :
    s'.has_error = false → deliveredSeqs s' = List.range s'.base_seq := by
  intro h'
  cases hst with
  | reserve hint =>
    have hse : s.has_error = false := by simpa [reserveFn] using h'
    simpa [reserveFn, deliveredSeqs] using ih hse
  | discard t ht hd =>
    have hse : s.has_error = false := by simpa using h'
    simpa [deliveredSeqs] using ih hse
  | cancel => simp [setErrorFn] at h'
  | reset => exact absurd rfl hne
  | finish t ht =>
    by_cases hse : s.has_error = true
    · rw [workerStore_of_error t hse] at h' ⊢
      simp at h'
      exact absurd h' (by simp [hse])
    · have hd := ih (by simpa using hse)
      have hsef : s.has_error = false := by simpa using hse
      simp only [deliveredSeqs] at hd ⊢
      simp only [workerStore, hsef, Bool.false_eq_true, if_false] at h' ⊢
      split_ifs at h' ⊢ with h1 h2 h3
      · exact hd
      · exact hd
      · exact hd
      · simp only [] at h' ⊢
        set buf := s.buffer.set (t.seq - s.base_seq) (some (workerCompute t)) with hbuf
        have herr : (drain buf s.base_seq s.delivered).errored = false := by
          simpa using h'
        have hble := drain_base_le buf s.base_seq s.delivered
        have hdo := drain_delivered_of_ok buf s.base_seq s.delivered herr
        simp only [hdo, hd]
        rw [range_append_range']
        congr 1
        omega

/-- The generation counter never decreases. -/
theorem step_gen_mono {s : PState} {e : Event} {s' : PState} (hst : Step s e s') :
    s.generation ≤ s'.generation := by
  cases hst with
  | reserve hint => simp [reserveFn]
  | finish t ht => simp [workerStore_generation]
  | discard t ht hd => simp
  | cancel => simp [setErrorFn]
  | reset => simp [resetFn]

/-- The generation counter never decreases along any execution. -/
theorem steps_gen_mono {s s' : PState} (h : Steps s s') :
    s.generation ≤ s'.generation := by
  induction h with
  | refl => exact Nat.le_refl _
  | tail h1 h2 ih => exact Nat.le_trans ih (step_gen_mono h2)

/-- Every in-flight task was spawned in the current or an older
generation, and transitions preserve this. -/
theorem step_taskgen_inv {s : PState} {e : Event} {s' : PState} (hst : Step s e s')
    (ih : ∀ t ∈ s.tasks, t.generation ≤ s.generation) :
    ∀ t ∈ s'.tasks, t.generation ≤ s'.generation := by
  cases hst with
  | reserve hint =>
    intro t htm
    simp only [reserveFn, List.mem_append, List.mem_singleton] at htm
    rcases htm with h | h
    · exact ih t h
    · simp [reserveFn, h]
  | finish t0 ht =>
    intro t htm
    simp only [workerStore_tasks] at htm
    have := ih t (List.mem_of_mem_erase htm)
    simpa [workerStore_generation] using this
  | discard t0 ht hd =>
    intro t htm
    simp only [] at htm
    exact ih t (List.mem_of_mem_erase htm)
  | cancel =>
    intro t htm
    exact ih t htm
  | reset =>
    intro t htm
    have := ih t htm
    simp only [resetFn]
    omega

/-- In every reachable state, all in-flight tasks carry the current or
an older generation. -/
theorem reach_taskgen {s : PState} (h : Reach s) :
    ∀ t ∈ s.tasks, t.generation ≤ s.generation := by
  induction h with
  | init => simp [initState]
  | step h1 h2 ih => exact step_taskgen_inv h2 ih

/-- The combined reorder-buffer invariant on every reset-free
reachable state: error-free delivery is exactly `0, 1, …,
base_seq - 1` in order, and `next_seq = base_seq + buffer.length`. -/
theorem reachNR_inv {s : PState} (h : ReachNR s) :
    (s.has_error = false → deliveredSeqs s = List.range s.base_seq) ∧
    s.next_seq = s.base_seq + s.buffer.length := by
  induction h with
  | init =>
    refine ⟨fun _ => ?_, by simp [initState]⟩
    simp [initState, deliveredSeqs]
  | step h1 h2 hne ih =>
    exact ⟨step_delivered_inv h2 hne ih.1, step_len_inv h2 ih.2⟩

/-- Once the error flag is set, along any reset-free execution it
stays set and the delivered log is frozen. -/
theorem stepsNR_error_frozen {s s' : PState} (h : StepsNR s s')
    (he : s.has_error = true) :
    s'.has_error = true ∧ s'.delivered = s.delivered := by
  induction h with
  | refl => exact ⟨he, rfl⟩
  | tail h1 h2 hne ih =>
    exact ⟨step_error_sticky h2 hne ih.1,
      (step_frozen_delivered h2 hne ih.1).trans ih.2⟩

/-! ## Functional correctness of the reorder buffer -/

/-- Fallback hint for total indexing of the ghost dispatch log. -/
def defaultHint : PrecompileHint := { hint_type := 0, data := [] }

/-- The result the pipeline computes for a dispatched record: its
handler applied after masking the hint type to the base type. -/
def resultOf (h : PrecompileHint) : HintResult :=
  process_hint { hint_type := baseOf h.hint_type, data := h.data }

/-- The drain only pops from the front: the remaining buffer is a
suffix of the input, offset by the number of popped slots. -/
theorem drain_buffer_drop (buf : List (Option HintResult)) (base : Nat)
    (acc : List (Nat × List Nat)) :
    (drain buf base acc).buffer =
      buf.drop ((drain buf base acc).base_seq - base) := by
  induction buf generalizing base acc with
  | nil => simp [drain]
  | cons a rest ih =>
    rcases a with _ | r
    · simp [drain]
    · rcases r with d | m
      · simp only [drain]
        have hle := drain_base_le rest (base + 1) (acc ++ [(base, d)])
        have hrec := ih (base + 1) (acc ++ [(base, d)])
        rw [hrec]
        have : (drain rest (base + 1) (acc ++ [(base, d)])).base_seq - base =
            ((drain rest (base + 1) (acc ++ [(base, d)])).base_seq - (base + 1)) + 1 := by
          omega
        rw [this, List.drop_succ_cons]
      · simp [drain]

/-- Every entry the drain appends to the delivery log comes from an
`Ok` slot of the input buffer, at the index matching its sequence
id. -/
theorem drain_delivered_mem (buf : List (Option HintResult)) (base : Nat)
    (acc : List (Nat × List Nat)) (k : Nat) (d : List Nat)
    (hm : (k, d) ∈ (drain buf base acc).delivered) :
    (k, d) ∈ acc ∨
      (base ≤ k ∧ k < (drain buf base acc).base_seq ∧
        buf.getD (k - base) none = some (.ok d)) := by
  induction buf generalizing base acc with
  | nil => simp [drain] at hm; exact Or.inl hm
  | cons a rest ih =>
    rcases a with _ | r
    · simp [drain] at hm; exact Or.inl hm
    · rcases r with dd | m
      · simp only [drain] at hm ⊢
        have hle := drain_base_le rest (base + 1) (acc ++ [(base, dd)])
        rcases ih (base + 1) (acc ++ [(base, dd)]) hm with hin | ⟨h1, h2, h3⟩
        · rcases List.mem_append.mp hin with hin | hin
          · exact Or.inl hin
          · simp only [List.mem_singleton, Prod.mk.injEq] at hin
            refine Or.inr ⟨hin.1 ▸ Nat.le_refl _, ?_, ?_⟩
            · omega
            · have hk : k - base = 0 := by omega
              rw [hk]
              simp [hin.2]
        · refine Or.inr ⟨by omega, by omega, ?_⟩
          have hk : k - base = (k - (base + 1)) + 1 := by omega
          rw [hk]
          simpa using h3
      · simp only [drain] at hm ⊢
        exact Or.inl hm

/-- The full functional invariant of the reorder pipeline on a
reset-free stream: the generation is still the initial one; the ghost
dispatch log indexes the sequence space; every in-flight task carries
the record it was spawned for; every `Ready` slot holds exactly the
handler result of the record dispatched at its sequence id; and —
while no error has occurred — the delivery log is `0, 1, …,
base_seq - 1` in order, each entry carrying the handler result of the
record dispatched at that sequence id. -/
structure GoodState (s : PState) : Prop where
  gen0 : s.generation = 0
  ndisp : s.next_seq = s.dispatched.length
  len : s.next_seq = s.base_seq + s.buffer.length
  tasks_ok : ∀ t ∈ s.tasks, t.generation = 0 ∧ t.seq < s.next_seq ∧
    s.dispatched.getD t.seq defaultHint = t.hint ∧
    t.base_type = baseOf t.hint.hint_type
  slots_ok : ∀ i, i < s.buffer.length → ∀ r, s.buffer.getD i none = some r →
    r = resultOf (s.dispatched.getD (s.base_seq + i) defaultHint)
  delivered_ok : s.has_error = false →
    deliveredSeqs s = List.range s.base_seq ∧
    ∀ p ∈ s.delivered, resultOf (s.dispatched.getD p.1 defaultHint) = .ok p.2

theorem goodState_init : GoodState initState := by
  refine ⟨rfl, rfl, rfl, ?_, ?_, ?_⟩
  · intro t ht; simp [initState] at ht
  · intro i hi; simp [initState] at hi
  · intro _
    refine ⟨by simp [initState, deliveredSeqs], ?_⟩
    intro p hp; simp [initState] at hp

/-- Preservation of the functional invariant along reset-free
transitions. -/
theorem step_goodState {s : PState} {e : Event} {s' : PState}
    (hst : Step s e s') (hne : e ≠ .reset) (ih : GoodState s) :
    GoodState s' := by
  cases hst with
  | reserve hint =>
    obtain ⟨g0, nd, ln, tok, sok, dok⟩ := ih
    refine ⟨g0, ?_, ?_, ?_, ?_, ?_⟩
    · simp [reserveFn]; omega
    · simp [reserveFn]; omega
    · intro t ht
      simp only [reserveFn, List.mem_append, List.mem_singleton] at ht
      rcases ht with ht | ht
      · obtain ⟨h1, h2, h3, h4⟩ := tok t ht
        refine ⟨h1, by simp [reserveFn]; omega, ?_, h4⟩
        simp only [reserveFn]
        rw [List.getD_eq_getElem?_getD, List.getElem?_append_left (by omega),
          ← List.getD_eq_getElem?_getD]
        exact h3
      · subst ht
        refine ⟨g0, by simp [reserveFn], ?_, rfl⟩
        simp only [reserveFn]
        rw [List.getD_eq_getElem?_getD, nd, List.getElem?_concat_length]
        rfl
    · intro i hi r hr
      simp only [reserveFn, List.length_append, List.length_cons,
        List.length_nil] at hi
      simp only [reserveFn] at hr ⊢
      by_cases hlt : i < s.buffer.length
      · rw [List.getD_eq_getElem?_getD, List.getElem?_append_left hlt,
          ← List.getD_eq_getElem?_getD] at hr
        rw [List.getD_eq_getElem?_getD,
          List.getElem?_append_left (by omega), ← List.getD_eq_getElem?_getD]
        exact sok i hlt r hr
      · have hieq : i = s.buffer.length := by omega
        rw [List.getD_eq_getElem?_getD, hieq, List.getElem?_concat_length] at hr
        simp at hr
    · intro hf
      have hsf : s.has_error = false := by simpa [reserveFn] using hf
      obtain ⟨d1, d2⟩ := dok hsf
      refine ⟨by simpa [reserveFn, deliveredSeqs] using d1, ?_⟩
      intro p hp
      have hp' : p ∈ s.delivered := by simpa [reserveFn] using hp
      have hk : p.1 < s.base_seq := by
        have : p.1 ∈ deliveredSeqs s := List.mem_map_of_mem Prod.fst hp'
        rw [d1] at this
        exact List.mem_range.mp this
      simp only [reserveFn]
      rw [List.getD_eq_getElem?_getD, List.getElem?_append_left (by omega),
        ← List.getD_eq_getElem?_getD]
      exact d2 p hp'
  | discard t ht hd =>
    obtain ⟨g0, nd, ln, tok, sok, dok⟩ := ih
    exact ⟨g0, nd, ln, fun t' ht' => tok t' (List.mem_of_mem_erase ht'),
      sok, dok⟩
  | cancel =>
    obtain ⟨g0, nd, ln, tok, sok, dok⟩ := ih
    refine ⟨g0, nd, ln, tok, sok, ?_⟩
    intro hf
    simp [setErrorFn] at hf
  | reset => exact absurd rfl hne
  | finish t ht =>
    obtain ⟨g0, nd, ln, tok, sok, dok⟩ := ih
    obtain ⟨tg, tlt, tdisp, tbase⟩ := tok t ht
    have htasks : ∀ t' ∈ s.tasks.erase t, t'.generation = 0 ∧
        t'.seq < s.next_seq ∧ s.dispatched.getD t'.seq defaultHint = t'.hint ∧
        t'.base_type = baseOf t'.hint.hint_type :=
      fun t' ht' => tok t' (List.mem_of_mem_erase ht')
    by_cases hg : t.generation ≠ s.generation
    · rw [workerStore_stale hg]
      exact ⟨g0, nd, ln, htasks, sok, dok⟩
    by_cases hseq : t.seq < s.base_seq
    · have hw : workerStore s t = s := by
        unfold workerStore
        rw [if_neg hg, if_pos hseq]
      rw [hw]
      exact ⟨g0, nd, ln, htasks, sok, dok⟩
    by_cases hoff : s.buffer.length ≤ t.seq - s.base_seq
    · have hw : workerStore s t = s := by
        unfold workerStore
        rw [if_neg hg, if_neg hseq, if_pos hoff]
      rw [hw]
      exact ⟨g0, nd, ln, htasks, sok, dok⟩
    by_cases herr : s.has_error = true
    · rw [workerStore_of_error t herr]
      exact ⟨g0, nd, ln, htasks, sok, dok⟩
    set buf2 := s.buffer.set (t.seq - s.base_seq) (some (workerCompute t))
      with hbuf2
    have hw : workerStore s t =
        { s with
            buffer := (drain buf2 s.base_seq s.delivered).buffer,
            base_seq := (drain buf2 s.base_seq s.delivered).base_seq,
            has_error := (drain buf2 s.base_seq s.delivered).errored,
            delivered := (drain buf2 s.base_seq s.delivered).delivered } := by
      unfold workerStore
      rw [if_neg hg, if_neg hseq, if_neg hoff, if_neg herr]
    have hb : (workerStore s t).buffer =
        (drain buf2 s.base_seq s.delivered).buffer := by rw [hw]
    have hbs : (workerStore s t).base_seq =
        (drain buf2 s.base_seq s.delivered).base_seq := by rw [hw]
    have hhe : (workerStore s t).has_error =
        (drain buf2 s.base_seq s.delivered).errored := by rw [hw]
    have hdel : (workerStore s t).delivered =
        (drain buf2 s.base_seq s.delivered).delivered := by rw [hw]
    have hsok2 : ∀ i, i < buf2.length → ∀ r, buf2.getD i none = some r →
        r = resultOf (s.dispatched.getD (s.base_seq + i) defaultHint) := by
      intro i hi r hr
      rw [hbuf2] at hi
      simp only [List.length_set] at hi
      rw [hbuf2, List.getD_eq_getElem?_getD, List.getElem?_set] at hr
      by_cases hieq : t.seq - s.base_seq = i
      · rw [if_pos hieq, if_pos (by omega)] at hr
        simp only [Option.getD_some, Option.some.injEq] at hr
        have hkidx : s.base_seq + i = t.seq := by omega
        rw [hkidx, tdisp, ← hr]
        simp [workerCompute, resultOf, tbase]
      · rw [if_neg hieq, ← List.getD_eq_getElem?_getD] at hr
        exact sok i hi r hr
    have hlen2 : buf2.length = s.buffer.length := by
      rw [hbuf2]; simp
    have hble := drain_base_le buf2 s.base_seq s.delivered
    have hdl := drain_len buf2 s.base_seq s.delivered
    have hdrop := drain_buffer_drop buf2 s.base_seq s.delivered
    refine ⟨?_, ?_, ?_, ?_, ?_, ?_⟩
    · show (workerStore s t).generation = 0
      rw [workerStore_generation]; exact g0
    · show (workerStore s t).next_seq = (workerStore s t).dispatched.length
      rw [workerStore_next_seq, workerStore_dispatched]; exact nd
    · show (workerStore s t).next_seq =
        (workerStore s t).base_seq + (workerStore s t).buffer.length
      rw [workerStore_next_seq, hbs, hb]
      omega
    · intro t' ht'
      obtain ⟨u1, u2, u3, u4⟩ := htasks t' ht'
      refine ⟨u1, ?_, ?_, u4⟩
      · show t'.seq < (workerStore s t).next_seq
        rw [workerStore_next_seq]; exact u2
      · show (workerStore s t).dispatched.getD t'.seq defaultHint = t'.hint
        rw [workerStore_dispatched]; exact u3
    · show ∀ i, i < (workerStore s t).buffer.length → ∀ r,
        (workerStore s t).buffer.getD i none = some r →
        r = resultOf ((workerStore s t).dispatched.getD
          ((workerStore s t).base_seq + i) defaultHint)
      rw [workerStore_dispatched, hb, hbs, hdrop]
      intro i hi r hr
      rw [List.getD_eq_getElem?_getD, List.getElem?_drop,
        ← List.getD_eq_getElem?_getD] at hr
      have hi2 : (drain buf2 s.base_seq s.delivered).base_seq - s.base_seq + i
          < buf2.length := by
        simp only [List.length_drop] at hi
        omega
      have hres := hsok2 _ hi2 r hr
      rw [hres]
      congr 2
      omega
    · show (workerStore s t).has_error = false →
        deliveredSeqs { workerStore s t with tasks := s.tasks.erase t } =
          List.range (workerStore s t).base_seq ∧
        ∀ p ∈ (workerStore s t).delivered,
          resultOf ((workerStore s t).dispatched.getD p.1 defaultHint) =
            .ok p.2
      rw [workerStore_dispatched, hhe, hbs, hdel]
      intro hf
      obtain ⟨d1, d2⟩ := dok (by simpa using herr)
      have hdok := drain_delivered_of_ok buf2 s.base_seq s.delivered hf
      constructor
      · simp only [deliveredSeqs] at d1 ⊢
        rw [hdel, hdok, d1, range_append_range']
        congr 1
        omega
      · intro p hp
        rcases drain_delivered_mem buf2 s.base_seq s.delivered p.1 p.2 hp
            with hin | ⟨h1, h2, h3⟩
        · exact d2 p hin
        · have hres := hsok2 (p.1 - s.base_seq) (by omega) (.ok p.2) h3
          have hidx : s.base_seq + (p.1 - s.base_seq) = p.1 := by omega
          rw [hidx] at hres
          rw [← hres]

/-- The functional invariant holds in every reset-free reachable
state. -/
theorem reachNR_goodState {s : PState} (h : ReachNR s) : GoodState s := by
  induction h with
  | init => exact goodState_init
  | step h1 h2 hne ih => exact step_goodState h2 hne ih

/-! ## Claim theorems -/

/-- C1.  For every sequence of data hints dispatched (across one or
more calls, along any reset-free interleaving of dispatcher and
workers, with no error), results are delivered from the front of the
reorder buffer strictly in dispatch (sequence) order — the delivered
sequence ids are exactly `0, 1, …, base_seq - 1` in that order, each
entry carrying the handler result of the record dispatched at that
sequence id, regardless of worker completion order — and `buffer[0]`
always corresponds to `base_seq`: slots are appended only at the tail
at `next_seq = base_seq + buffer.length`, are removed only from the
head, and the `Ready` slot at offset `i` holds exactly the result of
the record with sequence id `base_seq + i`. -/
theorem c1_ordered_delivery (s : PState) (h : ReachNR s) :
    (s.has_error = false →
      deliveredSeqs s = List.range s.base_seq ∧
      ∀ p ∈ s.delivered,
        resultOf (s.dispatched.getD p.1 defaultHint) = .ok p.2) ∧
    s.next_seq = s.base_seq + s.buffer.length ∧
    (∀ i, i < s.buffer.length → ∀ r, s.buffer.getD i none = some r →
      r = resultOf (s.dispatched.getD (s.base_seq + i) defaultHint)) := by
  obtain ⟨g0, nd, ln, tok, sok, dok⟩ := reachNR_goodState h
  exact ⟨dok, ln, sok⟩

def w1HintA : PrecompileHint := { hint_type := 1, data := [42] }

def w1HintB : PrecompileHint := { hint_type := 1, data := [43] }

def w1TaskA : Task :=
  { generation := 0, seq := 0, hint := w1HintA, base_type := 1 }

def w1TaskB : Task :=
  { generation := 0, seq := 1, hint := w1HintB, base_type := 1 }

def w1S1 : PState := reserveFn initState w1HintA

def w1S2 : PState := reserveFn w1S1 w1HintB

/-- The second worker completes first: its result parks at offset 1
while the front slot is still pending. -/
def w1S3 : PState :=
  { workerStore w1S2 w1TaskB with tasks := w1S2.tasks.erase w1TaskB }

/-- The first worker completes second; the drain then delivers both
results in dispatch order. -/
def w1S4 : PState :=
  { workerStore w1S3 w1TaskA with tasks := w1S3.tasks.erase w1TaskA }

theorem c1_ordered_delivery_witness :
    ((w1S4.has_error = false →
      deliveredSeqs w1S4 = List.range w1S4.base_seq ∧
      ∀ p ∈ w1S4.delivered,
        resultOf (w1S4.dispatched.getD p.1 defaultHint) = .ok p.2) ∧
     w1S4.next_seq = w1S4.base_seq + w1S4.buffer.length ∧
     (∀ i, i < w1S4.buffer.length → ∀ r, w1S4.buffer.getD i none = some r →
       r = resultOf (w1S4.dispatched.getD (w1S4.base_seq + i) defaultHint))) ∧
    w1S4.delivered = [(0, [42]), (1, [43])] := by
  refine ⟨c1_ordered_delivery w1S4 ?_, by decide⟩
  have h1 : ReachNR w1S1 :=
    ReachNR.step ReachNR.init (Step.reserve initState w1HintA) (by decide)
  have h2 : ReachNR w1S2 :=
    ReachNR.step h1 (Step.reserve w1S1 w1HintB) (by decide)
  have h3 : ReachNR w1S3 :=
    ReachNR.step h2 (Step.finish w1S2 w1TaskB (by decide)) (by decide)
  exact ReachNR.step h3 (Step.finish w1S3 w1TaskA (by decide)) (by decide)

/-- C2.  When the slot holding an `Err` result reaches the front of
the buffer, the drain pops it, increments `base_seq`, sets the error
flag and stops draining (later slots stay in place even if already
`Ready`); and from any state with the error flag set, along any
reset-free continuation the flag stays set, nothing further is ever
delivered to the sink, and `wait_for_completion` returns `Err`. -/
theorem c2_error_then_stop :
    (∀ (m : String) (rest : List (Option HintResult)) (base : Nat)
        (acc : List (Nat × List Nat)),
        drain (some (.err m) :: rest) base acc =
          { buffer := rest, base_seq := base + 1, errored := true,
            delivered := acc }) ∧
    (∀ s s' : PState, s.has_error = true → StepsNR s s' →
        s'.has_error = true ∧ s'.delivered = s.delivered ∧
        wait_step s' = some (.err "Processing stopped due to error")) := by
  constructor
  · intro m rest base acc; rfl
  · intro s s' he h
    obtain ⟨h1, h2⟩ := stepsNR_error_frozen h he
    refine ⟨h1, h2, ?_⟩
    simp [wait_step, h1]

def w2S : PState := setErrorFn initState

theorem c2_error_then_stop_witness :
    drain (some (.err "boom") :: [some (.ok [7])]) 5 [] =
      { buffer := [some (.ok [7])], base_seq := 6, errored := true,
        delivered := [] } ∧
    (w2S.has_error = true ∧ w2S.delivered = w2S.delivered ∧
      wait_step w2S = some (.err "Processing stopped due to error")) :=
  ⟨c2_error_then_stop.1 "boom" [some (.ok [7])] 5 [],
   c2_error_then_stop.2 w2S w2S (by decide) (StepsNR.refl w2S)⟩

/-- Whether a parse outcome is an error. -/
def Parsed.isErr : Parsed → Bool
  | .ok _ => false
  | .err _ => true

/-- C3.  `from_u64_slice` fails exactly when the index is out of
bounds (`idx ≥ slice.length`) or the buffer is shorter than
`idx + length + 1`; otherwise it returns the header's raw 32-bit
`hint_type` (bits 63..32 of the header word) and the `length` payload
words following the header.  It is a pure function of its inputs. -/
theorem c3_parse_exact (slice : List Nat) (idx : Nat) :
    ((from_u64_slice slice idx).isErr = true ↔
      slice.length ≤ idx ∨ slice.length < idx + slice.getD idx 0 % 2 ^ 32 + 1) ∧
    (idx < slice.length → idx + slice.getD idx 0 % 2 ^ 32 + 1 ≤ slice.length →
      from_u64_slice slice idx =
        .ok { hint_type := slice.getD idx 0 / 2 ^ 32 % 2 ^ 32,
              data := (slice.drop (idx + 1)).take (slice.getD idx 0 % 2 ^ 32) }) := by
  simp only [from_u64_slice]
  split_ifs with h1 h2
  · have hle : slice.length ≤ idx := by
      rcases h1 with h1 | h1
      · rw [List.isEmpty_iff] at h1; rw [h1]; simp
      · exact h1
    exact ⟨iff_of_true rfl (Or.inl hle), fun h => by omega⟩
  · exact ⟨iff_of_true rfl (Or.inr h2), fun _ h => by omega⟩
  · refine ⟨iff_of_false (by simp [Parsed.isErr]) ?_, fun _ _ => rfl⟩
    rintro (h | h)
    · exact h1 (Or.inr h)
    · exact h2 h

theorem c3_parse_exact_witness :
    from_u64_slice [make_header 7 1, 5] 0 =
      .ok { hint_type := 7, data := [5] } ∧
    (from_u64_slice [make_header 7 1, 5] 2).isErr = true := by
  constructor
  · have h := (c3_parse_exact [make_header 7 1, 5] 0).2 (by decide) (by decide)
    rw [h]; decide
  · exact ((c3_parse_exact [make_header 7 1, 5] 2).1).mpr (Or.inl (by decide))

/-- C5.  The error flag is sticky along reset-free transitions; while
it is set, every `process_hints` call returns `Err` immediately with
the state unchanged (no record dispatched), and `wait_for_completion`
returns `Err` — including on an empty buffer, since the flag check
takes priority over emptiness. -/
theorem c5_sticky_fail_fast :
    (∀ (s : PState) (e : Event) (s' : PState),
        Step s e s' → e ≠ .reset → s.has_error = true → s'.has_error = true) ∧
    (∀ (s : PState) (hints : List Nat), s.has_error = true →
        process_hints s hints =
          (s, .err "Processing stopped due to previous error")) ∧
    (∀ s : PState, s.has_error = true →
        wait_step s = some (.err "Processing stopped due to error")) := by
  refine ⟨fun s e s' h1 h2 h3 => step_error_sticky h1 h2 h3, ?_, ?_⟩
  · intro s hints he
    simp [process_hints, he]
  · intro s he
    simp [wait_step, he]

def w5S : PState := setErrorFn initState

theorem c5_sticky_fail_fast_witness :
    w5S.has_error = true ∧
    process_hints w5S [make_header 1 1, 9] =
      (w5S, .err "Processing stopped due to previous error") ∧
    wait_step w5S = some (.err "Processing stopped due to error") :=
  ⟨by decide,
   c5_sticky_fail_fast.2.1 w5S [make_header 1 1, 9] (by decide),
   c5_sticky_fail_fast.2.2 w5S (by decide)⟩

/-- C4.  A CANCEL directive (control code 3 in bits 31..24 of
`hint_type`) makes `process_hints` set the sticky error flag (which
wakes all waiters: `wait_step` then returns instead of blocking) and
return `Err` at once, dispatching nothing further from that call; an
ERROR directive (code 4) has the identical externally-visible effect
— the same resulting state — differing only in the error message. -/
theorem c4_cancel_error_abort (s : PState) (hints : List Nat) (idx : Nat)
    (hint : PrecompileHint) (hidx : idx < hints.length)
    (he : s.has_error = false) (hp : from_u64_slice hints idx = .ok hint) :
    (ctrlOf hint.hint_type = STREAM_CTRL_CANCEL →
      processHintsLoop s hints idx = (setErrorFn s, .err "Stream cancelled")) ∧
    (ctrlOf hint.hint_type = STREAM_CTRL_ERROR →
      processHintsLoop s hints idx =
        (setErrorFn s, .err "Stream error signalled")) ∧
    (setErrorFn s).has_error = true ∧ (setErrorFn s).tasks = s.tasks ∧
    (setErrorFn s).buffer = s.buffer := by
  refine ⟨?_, ?_, rfl, rfl, rfl⟩ <;> intro hc <;>
  · rw [processHintsLoop.eq_def]
    simp [Nat.not_le.mpr hidx, he, hp, hc, STREAM_CTRL_START, STREAM_CTRL_END,
      STREAM_CTRL_CANCEL, STREAM_CTRL_ERROR]

theorem c4_cancel_error_abort_witness :
    processHintsLoop initState [make_header (3 * 2 ^ 24 + 1) 0] 0 =
      (setErrorFn initState, .err "Stream cancelled") ∧
    processHintsLoop initState [make_header (4 * 2 ^ 24 + 1) 0] 0 =
      (setErrorFn initState, .err "Stream error signalled") :=
  ⟨(c4_cancel_error_abort initState [make_header (3 * 2 ^ 24 + 1) 0] 0
      { hint_type := 3 * 2 ^ 24 + 1, data := [] }
      (by decide) rfl (by decide)).1 (by decide),
   (c4_cancel_error_abort initState [make_header (4 * 2 ^ 24 + 1) 0] 0
      { hint_type := 4 * 2 ^ 24 + 1, data := [] }
      (by decide) rfl (by decide)).2.1 (by decide)⟩

/-- C6.  `reset` yields exactly the state of a freshly constructed
processor except for the incremented generation counter (and the ghost
fields recording the past); a worker whose generation does not match
discards its result without touching the state; the generation only
grows, so every worker dispatched before a reset — its generation
being at most the pre-reset one, by the reachability invariant —
discards its result in every state after the reset. -/
theorem c6_reset_fresh :
    (∀ s : PState, resetFn s =
      { initState with generation := s.generation + 1,
                       tasks := s.tasks, delivered := s.delivered,
                       dispatched := s.dispatched }) ∧
    (∀ (s : PState) (t : Task), t.generation ≠ s.generation →
      workerStore s t = s) ∧
    (∀ (s s' : PState) (t : Task), Steps (resetFn s) s' →
      t.generation ≤ s.generation → workerStore s' t = s') ∧
    (∀ s : PState, Reach s → ∀ t ∈ s.tasks, t.generation ≤ s.generation) := by
  refine ⟨fun s => rfl, fun s t h => workerStore_stale h, ?_,
    fun s h => reach_taskgen h⟩
  intro s s' t hsteps hgen
  have hmono := steps_gen_mono hsteps
  have hr : (resetFn s).generation = s.generation + 1 := rfl
  exact workerStore_stale (by omega)

def w6S : PState :=
  { buffer := [some (.ok [3])], base_seq := 2, next_seq := 3,
    has_error := true, generation := 4,
    tasks := [{ generation := 4, seq := 2,
                hint := { hint_type := 1, data := [3] }, base_type := 1 }],
    delivered := [(0, [1]), (1, [2])],
    dispatched := [{ hint_type := 1, data := [1] },
                   { hint_type := 1, data := [2] },
                   { hint_type := 1, data := [3] }] }

theorem c6_reset_fresh_witness :
    resetFn w6S =
      { initState with generation := w6S.generation + 1,
                       tasks := w6S.tasks, delivered := w6S.delivered,
                       dispatched := w6S.dispatched } ∧
    workerStore (resetFn w6S)
      { generation := 4, seq := 2,
        hint := { hint_type := 1, data := [3] }, base_type := 1 } =
      resetFn w6S ∧
    (∀ t ∈ initState.tasks, t.generation ≤ initState.generation) :=
  ⟨c6_reset_fresh.1 w6S,
   c6_reset_fresh.2.2.1 w6S (resetFn w6S)
     { generation := 4, seq := 2,
       hint := { hint_type := 1, data := [3] }, base_type := 1 }
     (Steps.refl (resetFn w6S)) (by decide),
   c6_reset_fresh.2.2.2 initState Reach.init⟩

/-- C7.  A parse failure makes `process_hints` return the parse error
synchronously with the shared state completely unchanged: the sticky
error flag is not set, and the slots and workers of records dispatched
earlier (already part of `s`) are not rolled back, so they continue
processing normally and later calls are unaffected by the parse error
itself. -/
theorem c7_parse_error_no_rollback (s : PState) (hints : List Nat) (idx : Nat)
    (e : String) (he : s.has_error = false) (hidx : idx < hints.length)
    (hp : from_u64_slice hints idx = .err e) :
    processHintsLoop s hints idx = (s, .err e) ∧
    (processHintsLoop s hints idx).1.has_error = false ∧
    (processHintsLoop s hints idx).1.tasks = s.tasks ∧
    (processHintsLoop s hints idx).1.buffer = s.buffer := by
  have h : processHintsLoop s hints idx = (s, .err e) := by
    rw [processHintsLoop.eq_def]
    simp [Nat.not_le.mpr hidx, he, hp]
  exact ⟨h, by rw [h]; exact he, by rw [h], by rw [h]⟩

def w7S : PState := reserveFn initState { hint_type := 1, data := [17] }

theorem c7_parse_error_no_rollback_witness :
    processHintsLoop w7S [make_header 1 1, 17, make_header 1 5] 2 =
      (w7S, .err "Slice too short for hint data: expected 5, got 0") ∧
    (processHintsLoop w7S [make_header 1 1, 17, make_header 1 5] 2).1.tasks =
      w7S.tasks :=
  ⟨(c7_parse_error_no_rollback w7S [make_header 1 1, 17, make_header 1 5] 2
      "Slice too short for hint data: expected 5, got 0"
      rfl (by decide) (by decide)).1,
   (c7_parse_error_no_rollback w7S [make_header 1 1, 17, make_header 1 5] 2
      "Slice too short for hint data: expected 5, got 0"
      rfl (by decide) (by decide)).2.2.1⟩

/-- Scenario B buffer `[hdr(999, 1), 0x1234]`. -/
def c8Buf : List Nat := [make_header 999 1, 0x1234]

/-- The task spawned for the single record of `c8Buf`. -/
def c8Task : Task :=
  { generation := 0, seq := 0,
    hint := { hint_type := 999, data := [0x1234] }, base_type := 999 }

/-- Shared state after dispatching `c8Buf` from a fresh processor. -/
def c8S1 : PState := reserveFn initState { hint_type := 999, data := [0x1234] }

/-- Shared state after the spawned worker finishes. -/
def c8S2 : PState :=
  { workerStore c8S1 c8Task with tasks := c8S1.tasks.erase c8Task }

/-- C8, counterexample.  On `[hdr(999, 1), 0x1234]`, `process_hints`
returns `Ok` and, after the worker finishes, `wait_for_completion`
returns `Err` — but its message is the fixed
`"Processing stopped due to error"`, not `"unknown hint type"`: the
handler's unknown-hint-type error is consumed by the drain loop (which
prints it and sets the sticky flag) and is not the error
`wait_for_completion` constructs. -/
theorem c8_counterexample :
    (process_hints initState c8Buf).2 = .ok ∧
    (process_hints initState c8Buf).1 = c8S1 ∧
    Step c8S1 (.finish c8Task) c8S2 ∧
    wait_step c8S2 = some (.err "Processing stopped due to error") ∧
    wait_step c8S2 ≠ some (.err "unknown hint type") := by
  refine ⟨?_, ?_, Step.finish c8S1 c8Task (by decide), by decide, by decide⟩ <;>
  · simp [process_hints, processHintsLoop, from_u64_slice, make_header,
      initState, ctrlOf, reserveFn, baseOf, c8Buf, c8S1, STREAM_CTRL_START,
      STREAM_CTRL_END, STREAM_CTRL_CANCEL, STREAM_CTRL_ERROR]

/-- C8, amended.  The handler registry maps base type 1 (RESULT) to a
pass-through returning the record's data unchanged, base type 2 to the
ECRECOVER handler (which currently returns an empty result), and every
other base type to the error `"Unknown hint type: <t>"`; for the
buffer `[hdr(999, 1), 0x1234]`, `process_hints` returns `Ok` and the
subsequent `wait_for_completion` returns `Err` (with the fixed message
`"Processing stopped due to error"`; the unknown-hint-type error set
the sticky flag when the slot was drained). -/
theorem c8_handler_registry :
    (∀ data : List Nat,
      process_hint { hint_type := HINTS_TYPE_RESULT, data := data } = .ok data) ∧
    (∀ data : List Nat,
      process_hint { hint_type := HINTS_TYPE_ECRECOVER, data := data } =
        process_hint_ecrecover { hint_type := HINTS_TYPE_ECRECOVER, data := data }) ∧
    (∀ (t : Nat) (data : List Nat),
      t ≠ HINTS_TYPE_RESULT → t ≠ HINTS_TYPE_ECRECOVER →
      process_hint { hint_type := t, data := data } =
        .err ("Unknown hint type: " ++ toString t)) ∧
    (process_hints initState c8Buf).2 = .ok ∧
    wait_step c8S2 = some (.err "Processing stopped due to error") := by
  refine ⟨?_, ?_, ?_, ?_, by decide⟩
  · intro data
    simp [process_hint, process_hint_result]
  · intro data
    simp [process_hint, HINTS_TYPE_RESULT, HINTS_TYPE_ECRECOVER]
  · intro t data h1 h2
    simp [process_hint, h1, h2]
  · simp [process_hints, processHintsLoop, from_u64_slice, make_header,
      initState, ctrlOf, reserveFn, baseOf, c8Buf, STREAM_CTRL_START,
      STREAM_CTRL_END, STREAM_CTRL_CANCEL, STREAM_CTRL_ERROR]

theorem c8_handler_registry_witness :
    process_hint { hint_type := 999, data := [18] } =
      .err "Unknown hint type: 999" :=
  (c8_handler_registry.2.2.1 999 [18] (by decide) (by decide)).trans (by decide)

/-- The header of a record whose control byte is the unrecognized
value 5 and whose base type is 1 (RESULT). -/
def c9Hdr : Nat := make_header (5 * 2 ^ 24 + 1) 0

/-- C9, counterexample.  It is not true that only records whose
control field is NONE are assigned a sequence slot: a record whose
control byte is the unrecognized value 5 falls through the directive
match and is sequenced and dispatched as a data record (with the low
24 bits as base type). -/
theorem c9_counterexample :
    ctrlOf (5 * 2 ^ 24 + 1) ≠ STREAM_CTRL_NONE ∧
    (process_hints initState [c9Hdr]).1.tasks =
      [{ generation := 0, seq := 0,
         hint := { hint_type := 5 * 2 ^ 24 + 1, data := [] },
         base_type := 1 }] ∧
    (process_hints initState [c9Hdr]).1.next_seq = 1 ∧
    (process_hints initState [c9Hdr]).2 = .ok := by
  refine ⟨by decide, ?_, ?_, ?_⟩ <;>
  · simp [process_hints, processHintsLoop, from_u64_slice, make_header,
      initState, ctrlOf, reserveFn, baseOf, c9Hdr, STREAM_CTRL_START,
      STREAM_CTRL_END, STREAM_CTRL_CANCEL, STREAM_CTRL_ERROR]

/-- C9, amended.  Records whose control byte is a recognized directive
— START, END, CANCEL or ERROR (1..4) — never occupy a sequence slot:
every task the dispatcher ever spawns is either pre-existing or
carries a record whose control byte is none of the four directives
(NONE, or an unrecognized value ≥ 5, which is dispatched as data). -/
theorem c9_directives_never_sequenced (s : PState) (hints : List Nat)
    (idx : Nat) :
    ∀ t ∈ (processHintsLoop s hints idx).1.tasks,
      t ∈ s.tasks ∨
        (ctrlOf t.hint.hint_type ≠ STREAM_CTRL_START ∧
         ctrlOf t.hint.hint_type ≠ STREAM_CTRL_END ∧
         ctrlOf t.hint.hint_type ≠ STREAM_CTRL_CANCEL ∧
         ctrlOf t.hint.hint_type ≠ STREAM_CTRL_ERROR) := by
  induction s, hints, idx using processHintsLoop.induct with
  | case1 s hints idx h =>
    rw [processHintsLoop.eq_def]
    simp [h]
    exact fun t ht => Or.inl ht
  | case2 s hints idx h he =>
    rw [processHintsLoop.eq_def]
    simp [h, he]
    exact fun t ht => Or.inl ht
  | case3 s hints idx h he e hp =>
    rw [processHintsLoop.eq_def]
    simp [h, he, hp]
    exact fun t ht => Or.inl ht
  | case4 s hints idx h he hint hp hc ih =>
    rw [processHintsLoop.eq_def]
    simp [h, he, hp, hc]
    intro t ht
    rcases ih t ht with hmem | hctrl
    · exact Or.inl (by simpa [resetFn] using hmem)
    · exact Or.inr hctrl
  | case5 s hints idx h he hint hp hc1 hc2 =>
    rw [processHintsLoop.eq_def]
    simp [h, he, hp, hc1, hc2]
    exact fun t ht => Or.inl ht
  | case6 s hints idx h he hint hp hc1 hc2 hc3 =>
    rw [processHintsLoop.eq_def]
    simp [h, he, hp, hc1, hc2, hc3]
    exact fun t ht => Or.inl ht
  | case7 s hints idx h he hint hp hc1 hc2 hc3 hc4 e hw =>
    rw [processHintsLoop.eq_def]
    simp [h, he, hp, hc1, hc2, hc3, hc4, hw]
    exact fun t ht => Or.inl ht
  | case8 s hints idx h he hint hp hc1 hc2 hc3 hc4 hw ih =>
    rw [processHintsLoop.eq_def]
    simp [h, he, hp, hc1, hc2, hc3, hc4, hw]
    intro t ht
    exact ih t ht
  | case9 s hints idx h he hint hp hc1 hc2 hc3 hc4 hw =>
    rw [processHintsLoop.eq_def]
    simp [h, he, hp, hc1, hc2, hc3, hc4, hw]
    exact fun t ht => Or.inl ht
  | case10 s hints idx h he hint hp hc1 hc2 hc3 hc4 ih =>
    rw [processHintsLoop.eq_def]
    simp [h, he, hp, hc1, hc2, hc3, hc4]
    intro t ht
    rcases ih t ht with hmem | hctrl
    · simp only [reserveFn, List.mem_append, List.mem_singleton] at hmem
      rcases hmem with hmem | hmem
      · exact Or.inl hmem
      · subst hmem
        exact Or.inr ⟨hc1, hc4, hc2, hc3⟩
    · exact Or.inr hctrl

theorem c9_directives_never_sequenced_witness :
    ({ generation := 0, seq := 0, hint := { hint_type := 1, data := [] },
       base_type := 1 } : Task) ∈ initState.tasks ∨
      (ctrlOf (({ hint_type := 1, data := [] } : PrecompileHint)).hint_type ≠
          STREAM_CTRL_START ∧
       ctrlOf (({ hint_type := 1, data := [] } : PrecompileHint)).hint_type ≠
          STREAM_CTRL_END ∧
       ctrlOf (({ hint_type := 1, data := [] } : PrecompileHint)).hint_type ≠
          STREAM_CTRL_CANCEL ∧
       ctrlOf (({ hint_type := 1, data := [] } : PrecompileHint)).hint_type ≠
          STREAM_CTRL_ERROR) :=
  c9_directives_never_sequenced initState [make_header 1 0] 0
    { generation := 0, seq := 0, hint := { hint_type := 1, data := [] },
      base_type := 1 }
    (by simp [processHintsLoop, from_u64_slice, make_header, initState,
        ctrlOf, reserveFn, baseOf, STREAM_CTRL_START, STREAM_CTRL_END,
        STREAM_CTRL_CANCEL, STREAM_CTRL_ERROR])

/-- C10.  A START or END control record with any length — in
particular a nonzero one — is not rejected: the directive is applied
(reset for START; the completion wait for END, here taken on a
schedule where it returns `Ok`), the payload words are skipped by
advancing the scan index by `length + 1`, and scanning continues. -/
theorem c10_control_payload_skipped (s : PState) (hints : List Nat)
    (idx : Nat) (hint : PrecompileHint) (hidx : idx < hints.length)
    (he : s.has_error = false) (hp : from_u64_slice hints idx = .ok hint) :
    (ctrlOf hint.hint_type = STREAM_CTRL_START →
      processHintsLoop s hints idx =
        processHintsLoop (resetFn s) hints (idx + hint.data.length + 1)) ∧
    (ctrlOf hint.hint_type = STREAM_CTRL_END → wait_step s = some .ok →
      processHintsLoop s hints idx =
        processHintsLoop s hints (idx + hint.data.length + 1)) := by
  constructor
  · intro hc
    rw [processHintsLoop.eq_def]
    simp [Nat.not_le.mpr hidx, he, hp, hc, STREAM_CTRL_START]
  · intro hc hw
    rw [processHintsLoop.eq_def]
    simp [Nat.not_le.mpr hidx, he, hp, hc, hw, STREAM_CTRL_START,
      STREAM_CTRL_END, STREAM_CTRL_CANCEL, STREAM_CTRL_ERROR]

def w10Start : List Nat := [make_header (2 ^ 24) 2, 7, 8, make_header 1 1, 42]

def w10End : List Nat := [make_header (2 * 2 ^ 24) 3, 1, 2, 3]

theorem c10_control_payload_skipped_witness :
    processHintsLoop initState w10Start 0 =
      processHintsLoop (resetFn initState) w10Start 3 ∧
    processHintsLoop initState w10End 0 =
      processHintsLoop initState w10End 4 :=
  ⟨(c10_control_payload_skipped initState w10Start 0
      { hint_type := 2 ^ 24, data := [7, 8] }
      (by decide) rfl (by decide)).1 (by decide),
   (c10_control_payload_skipped initState w10End 0
      { hint_type := 2 * 2 ^ 24, data := [1, 2, 3] }
      (by decide) rfl (by decide)).2 (by decide) (by decide)⟩

end PrecompilesHints
